import Mathlib

/-!
Shallow embedding of the RocksDB-backed embedding-table adapter
(`RocksDBTableOfTensors` in
`tensorflow_recommenders_addons/dynamic_embedding/core/kernels/rocksdb_table_op.cc`).

The adapter's observable state is the set of column families of the open
database (`colHandles`) together with the index of this table's own column
family (`colIndex`); `colIndex == colHandles.size()` encodes "namespace
absent".  Each column family is modelled as an association list of
(raw key bytes, raw value bytes) kept sorted in RocksDB's bytewise key
order, which is exactly the order a RocksDB iterator yields.  Machine
bytes are `Nat`s (each < 256 in well-formed data), byte strings are
`List Nat`.  C++ `Status` returns and thrown `std::runtime_error`s are
both modelled as `Except` error values; distinct throw sites get distinct
error constructors so that theorems can tell them apart.
-/

deriving instance DecidableEq for Except

namespace RDB

/-- Raw byte strings (RocksDB slices and file contents); each entry is one byte. -/
abbrev Bytes := List Nat

/-- Error outcomes of the adapter.  `Status` returns and thrown
`std::runtime_error`s of the C++ are both modelled as error values. -/
inductive RdbError where
  /-- `errors::InvalidArgument` (dtype / shape mismatches). -/
  | invalidArgument
  /-- `errors::PermissionDenied` (mutation attempted in read-only mode). -/
  | permissionDenied
  /-- thrown by `copyToTensor`: slice size does not match the element count. -/
  | corruptData
  /-- thrown by `ExportValues`: a key is longer than 255 bytes. -/
  | keyTooLong
  /-- thrown by `ExportValues`: a value is longer than 2^32 - 1 bytes. -/
  | valueTooLarge
  /-- `error::Code::NOT_FOUND`: the dump file cannot be opened. -/
  | notFound
  /-- `error::Code::INTERNAL` "Unsupported file-type": bad magic or version. -/
  | unsupportedFormat
  /-- `error::Code::OUT_OF_RANGE` "Unexpected end of file". -/
  | unexpectedEOF
  /-- `db->NewIterator(readOptions, nullptr)`: `ExportValues` dereferences a
  null column-family handle when the namespace is absent in read-only mode. -/
  | nullHandle
  /-- `db->MultiGet(readOptions, colHandles, ...)` indexes `colHandles[i]`
  for every key index `i`, out of bounds once there are more keys than
  column families. -/
  | outOfBoundsHandles
  deriving DecidableEq

/-- Strict bytewise (memcmp-style) order on raw keys: RocksDB's default
`BytewiseComparator`, the order of `iter->SeekToFirst(); iter->Next()`. -/
def bytesLt : Bytes → Bytes → Bool
  | [], [] => false
  | [], _ :: _ => true
  | _ :: _, [] => false
  | a :: as, b :: bs =>
    if a < b then true
    else if b < a then false
    else bytesLt as bs

/-- One column family's contents: an association list sorted by `bytesLt`
on the keys (RocksDB stores records in that order). -/
abbrev Store := List (Bytes × Bytes)

/-- `db->Get`: point lookup of one key in one column family. -/
def storeGet : Store → Bytes → Option Bytes
  | [], _ => none
  | (k0, v0) :: rest, k => if k = k0 then some v0 else storeGet rest k

/-- `db->Put` / `batch.Put`: upsert one record, keeping the key order. -/
def storePut : Store → Bytes → Bytes → Store
  | [], k, v => [(k, v)]
  | (k0, v0) :: rest, k, v =>
    if bytesLt k k0 then (k, v) :: (k0, v0) :: rest
    else if k = k0 then (k, v) :: rest
    else (k0, v0) :: storePut rest k v

/-- `db->Delete` / `batch.Delete`: remove one record if present. -/
def storeDel : Store → Bytes → Store
  | [], _ => []
  | (k0, v0) :: rest, k => if k = k0 then rest else (k0, v0) :: storeDel rest k

/-- Apply the `Put`s of a write batch (all of whose entries target a single
column family) in order, as `db->Write(writeOptions, &batch)` does. -/
def putAll (s : Store) : List (Bytes × Bytes) → Store
  | [] => s
  | (k, v) :: rest => putAll (storePut s k v) rest

/-- Apply the `Delete`s of a write batch in order. -/
def delAll (s : Store) : List Bytes → Store
  | [] => s
  | k :: rest => delAll (storeDel s k) rest

/-- The adapter state: the read-only flag, the open column families
(`colHandles`, in handle order), and `colIndex`, the position of this
table's own column family.  `colIndex = families.length` encodes
"namespace absent" (the state after construction without a matching
family, or after `Clear`).  The write-only scratch vector
`colHandleCache` is omitted: it is filled in `Find` but never read. -/
structure TableState where
  readOnly : Bool
  families : List Store
  colIndex : Nat
  deriving DecidableEq

/-- The bookkeeping invariant maintained by construction, `Clear` and
`GetOrCreateColumnHandle`: `colIndex` never exceeds the handle count. -/
def TableState.wf (t : TableState) : Prop := t.colIndex ≤ t.families.length

/-- The namespace (column family) of this table currently exists. -/
def TableState.present (t : TableState) : Prop := t.colIndex < t.families.length

instance (t : TableState) : Decidable t.wf :=
  inferInstanceAs (Decidable (_ ≤ _))

instance (t : TableState) : Decidable t.present :=
  inferInstanceAs (Decidable (_ < _))

/-- `GetOrCreateColumnHandle`: returns the table's column-family handle,
creating the family if it does not exist; in read-only mode an absent
family yields a null handle (`none`).  Under `TableState.wf`, the handle
returned after creation (`colHandles[colIndex]`) is the freshly pushed
family. -/
def GetOrCreateColumnHandle (t : TableState) : Option Nat × TableState :=
  if t.colIndex < t.families.length then (some t.colIndex, t)
  else if t.readOnly then (none, t)
  else (some t.colIndex, { t with families := t.families ++ [[]] })

/-- `Clear`: if the family exists, refuse in read-only mode, otherwise drop
it and set `colIndex = colHandles.size()` (namespace absent); if the family
does not exist, succeed without touching anything.  (The C++ also clears
the write-only `colHandleCache`, which the model omits.) -/
def Clear (t : TableState) : Except RdbError TableState :=
  if t.colIndex < t.families.length then
    if t.readOnly then .error .permissionDenied
    else .ok { t with
      families := t.families.eraseIdx t.colIndex,
      colIndex := (t.families.eraseIdx t.colIndex).length }
  else .ok t

/-- Split a raw byte buffer into `n` fixed-width elements of `eltSz` bytes
each: the element-wise view of `memcpy` into a typed tensor. -/
def chunksOf (eltSz : Nat) : Nat → Bytes → List Bytes
  | 0, _ => []
  | n + 1, b => b.take eltSz :: chunksOf eltSz n (b.drop eltSz)

/-- `copyToTensor<T>` (fixed-width specialization): fails unless the slice
holds exactly `vpd` elements of `eltSz` bytes, then copies them out. -/
def copyToTensor (eltSz vpd : Nat) (slice : Bytes) : Except RdbError (List Bytes) :=
  if slice.length = vpd * eltSz then .ok (chunksOf eltSz vpd slice)
  else .error .corruptData

/-- Miss handling in `Find`:
`std::copy_n(&d[vOffset % dSize], valuesPerDim0, &v[vOffset])`.
In the C++ this reads `vpd` elements starting at index `off % d.length`
unconditionally; the model's `take` silently stops at the end of `d`,
which is the subject of claim C10. -/
def defaultFill (d : List Bytes) (vpd off : Nat) : List Bytes :=
  (d.drop (off % d.length)).take vpd

/-- The expected output of a `Find` whose `n` keys all miss: slot `i` is
filled from the default buffer at element offset `(off + i*vpd) % d.length`. -/
def defaultTiled (d : List Bytes) (vpd : Nat) : Nat → Nat → List Bytes
  | 0, _ => []
  | n + 1, off => defaultFill d vpd off ++ defaultTiled d vpd n (off + vpd)

/-- The shared result-processing loop of both `Find` paths: for status `ok`
decode the returned slice into the output slot, for status `NotFound` fill
the slot from the default buffer, abort on anything else (modelled by
`copyToTensor`'s error). -/
def processStatuses (eltSz vpd : Nat) (d : List Bytes) :
    List (Option Bytes) → Nat → Except RdbError (List Bytes)
  | [], _ => .ok []
  | some vSlice :: rest, off =>
    match copyToTensor eltSz vpd vSlice with
    | .error e => .error e
    | .ok elts =>
      match processStatuses eltSz vpd d rest (off + vpd) with
      | .error e => .error e
      | .ok tail => .ok (elts ++ tail)
  | none :: rest, off =>
    match processStatuses eltSz vpd d rest (off + vpd) with
    | .error e => .error e
    | .ok tail => .ok (defaultFill d vpd off ++ tail)

/-- Point-path statuses: one `db->Get` per key against the table's own
column family; a null handle means `Status::NotFound()` for every key. -/
def pointStatuses (fam : Option Store) (keys : List Bytes) : List (Option Bytes) :=
  keys.map fun k => fam.bind fun s => storeGet s k

/-- Bulk-path statuses, modelling the call
`db->MultiGet(readOptions, colHandles, kSlices, &vSlices)` faithfully:
RocksDB's vector `MultiGet` looks key `i` up in `column_family[i]`, so this
reads key `i` in family `i` of the whole handle vector — NOT in the
table's own family.  (The C++ fills `colHandleCache` with `numKeys` copies
of the right handle just above this call, but then passes `colHandles`.) -/
def multiGetStatuses (fams : List Store) (keys : List Bytes) : List (Option Bytes) :=
  keys.enum.map fun p => storeGet (fams.getD p.1 []) p.2

/-- `Find`.  The dtype checks are rendered vacuous by the typed embedding;
`valuesPerDim0 = values->NumElements() / values->dim_size(0)` is passed
directly as `vpd` (tensors are rectangular, so the division is exact), and
`numValues = values->dim_size(0)`.  Note the C++ calls
`GetOrCreateColumnHandle` before any shape check, so a read-write `Find`
creates the namespace even when its arguments are rejected.  With fewer
than `RDB_BATCH_MODE_MIN_QUERY_SIZE = 2` keys it issues one `Get` per key;
otherwise one vector `MultiGet` (see `multiGetStatuses` for the handle
vector it receives; keys beyond `colHandles.size()` index the handle
vector out of bounds, modelled by `.outOfBoundsHandles`).  A null handle
makes every status `NotFound` on both paths. -/
def Find (eltSz : Nat) (t : TableState) (keys : List Bytes)
    (numValues vpd : Nat) (d : List Bytes) :
    Except RdbError (List Bytes) × TableState :=
  let r := GetOrCreateColumnHandle t
  let colHandle := r.1
  let t1 := r.2
  if keys.length ≠ numValues then (.error .invalidArgument, t1)
  else if ¬ (d.length % vpd = 0) then (.error .invalidArgument, t1)
  else if keys.length < 2 then
    (processStatuses eltSz vpd d
      (pointStatuses (colHandle.map fun h => t1.families.getD h []) keys) 0, t1)
  else
    match colHandle with
    | none => (processStatuses eltSz vpd d (keys.map fun _ => none) 0, t1)
    | some _ =>
      if t1.families.length < keys.length then (.error .outOfBoundsHandles, t1)
      else (processStatuses eltSz vpd d (multiGetStatuses t1.families keys) 0, t1)

/-- `Insert`.  `keys` and `values` carry one encoded slice per record (the
C++ slices the flat tensors with `assignSlice`).  The point path issues one
`db->Put` per record; the bulk path accumulates `batch.Put(colHandle, ...)`
entries and commits once — both apply the same upserts in the same order,
hence both reduce to `putAll`. -/
def Insert (t : TableState) (keys values : List Bytes) :
    Except RdbError Unit × TableState :=
  let r := GetOrCreateColumnHandle t
  match r.1 with
  | none => (.error .permissionDenied, r.2)
  | some h =>
    if r.2.readOnly then (.error .permissionDenied, r.2)
    else if keys.length ≠ values.length then (.error .invalidArgument, r.2)
    else
      (.ok (), { r.2 with
        families := r.2.families.set h (putAll (r.2.families.getD h []) (keys.zip values)) })

/-- `Remove`.  As with `Insert`, the point path (`db->Delete` per key) and
the batch path (`batch.Delete(colHandle, ...)` then one `db->Write`) apply
the same deletions in the same order, hence both reduce to `delAll`. -/
def Remove (t : TableState) (keys : List Bytes) :
    Except RdbError Unit × TableState :=
  let r := GetOrCreateColumnHandle t
  match r.1 with
  | none => (.error .permissionDenied, r.2)
  | some h =>
    if r.2.readOnly then (.error .permissionDenied, r.2)
    else (.ok (), { r.2 with
      families := r.2.families.set h (delAll (r.2.families.getD h []) keys) })

/-- `('T' << 0) | ('F' << 8) | ('K' << 16) | ('V' << 24)`. -/
def RDB_EXPORT_FILE_MAGIC : Nat := 84 + 70 * 256 + 75 * 65536 + 86 * 16777216

def RDB_EXPORT_FILE_VERSION : Nat := 1

/-- The in-memory (little-endian host) byte image of a `uint32_t`, as
`file.write(reinterpret_cast<const char *>(&x), 4)` emits it. -/
def u32le (x : Nat) : Bytes :=
  [x % 256, x / 256 % 256, x / 65536 % 256, x / 16777216 % 256]

/-- Decode 4 little-endian bytes, as `file.read` into a `uint32_t` does. -/
def u32ofBytes (b : Bytes) : Nat :=
  b.getD 0 0 + b.getD 1 0 * 256 + b.getD 2 0 * 65536 + b.getD 3 0 * 16777216

/-- One framed snapshot record:
`(uint8 keyLength, keyBytes, uint32 valueLength, valueBytes)`. -/
def frameOf (kv : Bytes × Bytes) : Bytes :=
  kv.1.length :: (kv.1 ++ u32le kv.2.length ++ kv.2)

/-- The record-emitting iterator loop of `ExportValues`: walk the family in
key order, throw if a key exceeds the `uint8` length field or a value
exceeds the `uint32` length field, else append the frame. -/
def exportFrames : Store → Except RdbError Bytes
  | [] => .ok []
  | (k, v) :: rest =>
    if 255 < k.length then .error .keyTooLong
    else if 4294967295 < v.length then .error .valueTooLarge
    else
      match exportFrames rest with
      | .error e => .error e
      | .ok tail => .ok (frameOf (k, v) ++ tail)

/-- `ExportValues`: write the 8-byte header, then every record of the
table's family in the store's key order.  The destination file is modelled
by the returned byte string.  NOTE: the C++ passes the result of
`GetOrCreateColumnHandle` straight to `db->NewIterator`; in read-only mode
with an absent family that handle is null and the iterator construction
dereferences it (modelled by `.nullHandle`), and in read-write mode an
absent family is first created. -/
def ExportValues (t : TableState) : Except RdbError Bytes × TableState :=
  let header := u32le RDB_EXPORT_FILE_MAGIC ++ u32le RDB_EXPORT_FILE_VERSION
  let r := GetOrCreateColumnHandle t
  match r.1 with
  | none => (.error .nullHandle, r.2)
  | some h =>
    match exportFrames (r.2.families.getD h []) with
    | .error e => (.error e, r.2)
    | .ok frames => (.ok (header ++ frames), r.2)

/-- `fams.set h (putAll ...)`: commit a write batch of `Put`s against
column family `h`, as `db->Write(writeOptions, &batch)` does. -/
def commitBatch (fams : List Store) (h : Nat) (batch : List (Bytes × Bytes)) : List Store :=
  fams.set h (putAll (fams.getD h []) batch)

/-- The `while (!file.eof())` record loop of `ImportValues`.  Each
`if _ ≤ _.length` guard models one `file.read` call (which fails, setting
`eofbit`/`failbit`, exactly when fewer bytes remain than requested, and
then the function returns `errorEOF`).  Crucially, a *successful* read
never sets `eofbit` — not even one that consumes the last byte — so every
recursive call passes `eofBit = false` and the `eofBit = true` branch
(commit of the final partial batch, then `Status::OK`) is unreachable from
the initial call: the loop can only terminate through a failed read.
A full batch (`batch.Count() % RDB_BATCH_MODE_MAX_QUERY_SIZE == 0`, with
`RDB_BATCH_MODE_MAX_QUERY_SIZE = 128`) is committed and cleared in-loop. -/
def importLoop (h : Nat) (fams : List Store) (batch : List (Bytes × Bytes))
    (eofBit : Bool) (rem : Bytes) : Except RdbError Unit × List Store :=
  if eofBit then
    -- Write remaining entries, if any.
    if batch.length ≠ 0 then (.ok (), commitBatch fams h batch) else (.ok (), fams)
  else
    match rem with
    | [] => (.error .unexpectedEOF, fams)
    | kSize :: rem1 =>
      if kSize ≤ rem1.length then
        let k := rem1.take kSize
        let rem2 := rem1.drop kSize
        if 4 ≤ rem2.length then
          let vSize := u32ofBytes (rem2.take 4)
          let rem3 := rem2.drop 4
          if vSize ≤ rem3.length then
            let v := rem3.take vSize
            let rem4 := rem3.drop vSize
            let batch1 := batch ++ [(k, v)]
            if batch1.length % 128 = 0 then
              importLoop h (commitBatch fams h batch1) [] false rem4
            else
              importLoop h fams batch1 false rem4
          else (.error .unexpectedEOF, fams)
        else (.error .unexpectedEOF, fams)
      else (.error .unexpectedEOF, fams)
termination_by rem.length
decreasing_by
  all_goals simp only [List.length_drop, List.length_cons]; omega

/-- Read `n` bytes from the head of a stream; fails (setting the stream's
fail/eof bits) when fewer than `n` remain — the model of `file.read`. -/
def readN (n : Nat) (rem : Bytes) : Option (Bytes × Bytes) :=
  if n ≤ rem.length then some (rem.take n, rem.drop n) else none

/-- `ImportValues`: unconditionally `Clear` first (propagating its error),
open the source (`none` models an unopenable file), parse and check the
8-byte header, re-acquire the column family (PermissionDenied on a null
handle or read-only mode), then run the record loop.  The keys/values
tensor arguments of the op are ignored by the C++, and so omitted here. -/
def ImportValues (t : TableState) (file : Option Bytes) :
    Except RdbError Unit × TableState :=
  match Clear t with
  | .error e => (.error e, t)
  | .ok t1 =>
    match file with
    | none => (.error .notFound, t1)
    | some bytes =>
      match readN 4 bytes with
      | none => (.error .unexpectedEOF, t1)
      | some (mb, r1) =>
        match readN 4 r1 with
        | none => (.error .unexpectedEOF, t1)
        | some (vb, r2) =>
          if u32ofBytes mb ≠ RDB_EXPORT_FILE_MAGIC ∨
             u32ofBytes vb ≠ RDB_EXPORT_FILE_VERSION then
            (.error .unsupportedFormat, t1)
          else
            let r := GetOrCreateColumnHandle t1
            match r.1 with
            | none => (.error .permissionDenied, r.2)
            | some h =>
              if r.2.readOnly then (.error .permissionDenied, r.2)
              else
                let res := importLoop h r.2.families [] false r2
                (res.1, { r.2 with families := res.2 })

/-- The sortedness invariant of every reachable `Store`: keys strictly
ascending in RocksDB's bytewise order. -/
def StoreSorted (s : Store) : Prop :=
  List.Pairwise (fun a b => bytesLt a.1 b.1 = true) s

instance (s : Store) : Decidable (StoreSorted s) :=
  inferInstanceAs (Decidable (List.Pairwise _ s))

/-! ## Order facts about the bytewise comparator -/

theorem bytesLt_trans : ∀ {a b c : Bytes},
    bytesLt a b = true → bytesLt b c = true → bytesLt a c = true := by
  intro a
  induction a with
  | nil =>
    intro b c hab hbc
    cases b with
    | nil => simp [bytesLt] at hab
    | cons y ys =>
      cases c with
      | nil => simp [bytesLt] at hbc
      | cons z zs => simp [bytesLt]
  | cons x xs ih =>
    intro b c hab hbc
    cases b with
    | nil => simp [bytesLt] at hab
    | cons y ys =>
      cases c with
      | nil => simp [bytesLt] at hbc
      | cons z zs =>
        by_cases h1 : x < y
        · by_cases h2 : y < z
          · simp [bytesLt, Nat.lt_trans h1 h2]
          · by_cases h3 : z < y
            · simp [bytesLt, h2, h3] at hbc
            · have hyz : y = z := by omega
              subst hyz
              simp [bytesLt, h1]
        · by_cases h2 : y < x
          · simp [bytesLt, h1, h2] at hab
          · have hxy : x = y := by omega
            subst hxy
            simp only [bytesLt, if_neg h1, if_neg h2] at hab
            by_cases h3 : x < z
            · simp [bytesLt, h3]
            · by_cases h4 : z < x
              · simp [bytesLt, h3, h4] at hbc
              · have hxz : x = z := by omega
                subst hxz
                simp only [bytesLt, if_neg h3, if_neg h4] at hbc ⊢
                exact ih hab hbc

theorem bytesLt_conn : ∀ {a b : Bytes},
    bytesLt a b = false → a ≠ b → bytesLt b a = true := by
  intro a
  induction a with
  | nil =>
    intro b hab hne
    cases b with
    | nil => exact absurd rfl hne
    | cons y ys => simp [bytesLt] at hab
  | cons x xs ih =>
    intro b hab hne
    cases b with
    | nil => simp [bytesLt]
    | cons y ys =>
      by_cases h1 : x < y
      · simp [bytesLt, h1] at hab
      · by_cases h2 : y < x
        · simp [bytesLt, h2]
        · have hxy : x = y := by omega
          subst hxy
          simp only [bytesLt, if_neg h1] at hab
          have hne' : xs ≠ ys := by
            intro hc; exact hne (by rw [hc])
          simp only [bytesLt, if_neg h1]
          exact ih hab hne'

/-! ## The store invariant: every reachable column family is sorted -/

theorem mem_storePut : ∀ {s : Store} {k v x},
    x ∈ storePut s k v → x = (k, v) ∨ x ∈ s := by
  intro s
  induction s with
  | nil =>
    intro k v x hx
    simp only [storePut, List.mem_singleton] at hx
    exact Or.inl hx
  | cons p rest ih =>
    intro k v x hx
    obtain ⟨k0, v0⟩ := p
    simp only [storePut] at hx
    split at hx
    · rcases List.mem_cons.mp hx with h | h
      · exact Or.inl h
      · exact Or.inr h
    · split at hx
      · rcases List.mem_cons.mp hx with h | h
        · exact Or.inl h
        · exact Or.inr (List.mem_cons_of_mem _ h)
      · rcases List.mem_cons.mp hx with h | h
        · exact Or.inr (h ▸ List.mem_cons_self _ _)
        · rcases ih h with h' | h'
          · exact Or.inl h'
          · exact Or.inr (List.mem_cons_of_mem _ h')

theorem storePut_sorted {s : Store} {k v : Bytes} (hs : StoreSorted s) :
    StoreSorted (storePut s k v) := by
  induction s with
  | nil => simp [storePut, StoreSorted]
  | cons p rest ih =>
    obtain ⟨k0, v0⟩ := p
    rw [StoreSorted, List.pairwise_cons] at hs
    obtain ⟨hhead, htail⟩ := hs
    simp only [storePut]
    split
    case isTrue hlt =>
      rw [StoreSorted, List.pairwise_cons]
      refine ⟨?_, ?_⟩
      · intro y hy
        rcases List.mem_cons.mp hy with rfl | hy'
        · exact hlt
        · exact bytesLt_trans hlt (hhead y hy')
      · rw [List.pairwise_cons]
        exact ⟨hhead, htail⟩
    case isFalse hnlt =>
      split
      case isTrue heq =>
        subst heq
        rw [StoreSorted, List.pairwise_cons]
        exact ⟨hhead, htail⟩
      case isFalse hne =>
        rw [StoreSorted, List.pairwise_cons]
        refine ⟨?_, ih htail⟩
        intro y hy
        rcases mem_storePut hy with rfl | hy'
        · exact bytesLt_conn (Bool.not_eq_true _ ▸ hnlt) hne
        · exact hhead y hy'

theorem storeDel_sublist (s : Store) (k : Bytes) : List.Sublist (storeDel s k) s := by
  induction s with
  | nil => simp [storeDel]
  | cons p rest ih =>
    obtain ⟨k0, v0⟩ := p
    simp only [storeDel]
    split
    · exact List.sublist_cons_self _ _
    · exact ih.cons₂ _

theorem storeDel_sorted {s : Store} {k : Bytes} (hs : StoreSorted s) :
    StoreSorted (storeDel s k) :=
  hs.sublist (storeDel_sublist s k)

theorem putAll_sorted : ∀ (batch : List (Bytes × Bytes)) {s : Store},
    StoreSorted s → StoreSorted (putAll s batch) := by
  intro batch
  induction batch with
  | nil => intro s hs; exact hs
  | cons p rest ih =>
    intro s hs
    obtain ⟨k, v⟩ := p
    exact ih (storePut_sorted hs)

theorem delAll_sorted : ∀ (keys : List Bytes) {s : Store},
    StoreSorted s → StoreSorted (delAll s keys) := by
  intro keys
  induction keys with
  | nil => intro s hs; exact hs
  | cons k rest ih => intro s hs; exact ih (storeDel_sorted hs)

theorem nil_sorted : StoreSorted [] := List.Pairwise.nil

/-! ## Small list facts used by the namespace bookkeeping -/

theorem getD_append_len {α} (l : List α) (x d : α) : (l ++ [x]).getD l.length d = x := by
  induction l with
  | nil => rfl
  | cons a as ih => simp [ih]

theorem set_append_len {α} (l : List α) (x y : α) :
    (l ++ [x]).set l.length y = l ++ [y] := by
  induction l with
  | nil => rfl
  | cons a as ih => simp [ih]

theorem delAll_nil_store : ∀ keys : List Bytes, delAll [] keys = [] := by
  intro keys
  induction keys with
  | nil => rfl
  | cons k rest ih => simpa [delAll, storeDel] using ih

/-! ## Evaluation lemmas for `GetOrCreateColumnHandle` and `Find` -/

theorem getOrCreate_present {t : TableState} (hp : t.colIndex < t.families.length) :
    GetOrCreateColumnHandle t = (some t.colIndex, t) := by
  simp [GetOrCreateColumnHandle, hp]

theorem getOrCreate_absent_ro {t : TableState} (hro : t.readOnly = true)
    (habs : t.families.length ≤ t.colIndex) :
    GetOrCreateColumnHandle t = (none, t) := by
  have hnp : ¬ t.colIndex < t.families.length := by omega
  simp [GetOrCreateColumnHandle, hnp, hro]

theorem getOrCreate_absent_rw {t : TableState} (hro : t.readOnly = false)
    (habs : t.families.length ≤ t.colIndex) :
    GetOrCreateColumnHandle t
      = (some t.colIndex, { t with families := t.families ++ [[]] }) := by
  have hnp : ¬ t.colIndex < t.families.length := by omega
  simp [GetOrCreateColumnHandle, hnp, hro]

theorem pointStatuses_none (keys : List Bytes) :
    pointStatuses none keys = keys.map fun _ => none := rfl

/-- Processing a run of `NotFound` statuses default-fills every slot. -/
theorem processStatuses_all_none (eltSz vpd : Nat) (d : List Bytes) :
    ∀ (n off : Nat),
      processStatuses eltSz vpd d (List.replicate n none) off
        = .ok (defaultTiled d vpd n off) := by
  intro n
  induction n with
  | zero => intro off; rfl
  | succ m ih =>
    intro off
    simp [List.replicate_succ, processStatuses, ih, defaultTiled]

/-- A read-only `Find` against an absent namespace: every key misses, the
output is the default buffer tiled across the slots, and the state is
untouched. -/
theorem find_absent_ro_eval (eltSz vpd numValues : Nat) (d : List Bytes)
    (keys : List Bytes) (t : TableState) (hro : t.readOnly = true)
    (habs : t.families.length ≤ t.colIndex)
    (hlen : keys.length = numValues) (hdiv : d.length % vpd = 0) :
    Find eltSz t keys numValues vpd d = (.ok (defaultTiled d vpd keys.length 0), t) := by
  subst hlen
  simp only [Find, getOrCreate_absent_ro hro habs]
  by_cases hk : keys.length < 2
  · simp [hdiv, hk, pointStatuses_none, processStatuses_all_none]
  · simp [hdiv, hk, processStatuses_all_none]

/-- A single-key `Find` against an existing namespace succeeds whenever the
stored value for that key (if any) has the encoded length the call expects. -/
theorem find_present_single_ok (eltSz vpd : Nat) (d : List Bytes) (k : Bytes) (t : TableState)
    (hp : t.colIndex < t.families.length) (hdiv : d.length % vpd = 0)
    (hdec : ∀ v, storeGet (t.families.getD t.colIndex []) k = some v →
      v.length = vpd * eltSz) :
    ∃ out, (Find eltSz t [k] 1 vpd d).1 = .ok out := by
  simp only [Find, getOrCreate_present hp]
  cases hg : storeGet (t.families.getD t.colIndex []) k with
  | none =>
    simp [hdiv, processStatuses, pointStatuses, ← List.getD_eq_getElem?_getD, hg]
  | some v =>
    simp [hdiv, processStatuses, pointStatuses, ← List.getD_eq_getElem?_getD, hg,
      copyToTensor, hdec v hg]

/-- Whatever else happens, the state `Find` returns is the state produced
by its initial `GetOrCreateColumnHandle` call: every later branch only
reads. -/
theorem find_snd (eltSz : Nat) (t : TableState) (keys : List Bytes)
    (numValues vpd : Nat) (d : List Bytes) :
    (Find eltSz t keys numValues vpd d).2 = (GetOrCreateColumnHandle t).2 := by
  simp only [Find]
  split_ifs <;>
    first
      | rfl
      | (rcases hch : (GetOrCreateColumnHandle t).1 with _ | h <;> simp [hch])

/-! ## Evaluation lemmas for `ExportValues` -/

/-- When every record respects the frame bounds, the iterator loop emits
exactly one frame per record, in store order. -/
theorem exportFrames_ok : ∀ s : Store,
    (∀ kv ∈ s, kv.1.length ≤ 255 ∧ kv.2.length ≤ 4294967295) →
    exportFrames s = .ok (s.flatMap frameOf) := by
  intro s
  induction s with
  | nil => intro _; rfl
  | cons p rest ih =>
    intro hb
    obtain ⟨k, v⟩ := p
    obtain ⟨hk, hv⟩ := hb (k, v) (List.mem_cons_self _ _)
    simp only at hk hv
    have h1 : ¬ 255 < k.length := by omega
    have h2 : ¬ 4294967295 < v.length := by omega
    have ih' := ih fun kv hkv => hb kv (List.mem_cons_of_mem _ hkv)
    simp [exportFrames, h1, h2, ih', List.flatMap_cons]

/-- When some record violates a frame bound, the iterator loop throws one of
the two oversize errors (and writes no complete file). -/
theorem exportFrames_err : ∀ s : Store,
    (∃ kv ∈ s, 255 < kv.1.length ∨ 4294967295 < kv.2.length) →
    ∃ e, exportFrames s = .error e ∧
      (e = RdbError.keyTooLong ∨ e = RdbError.valueTooLarge) := by
  intro s
  induction s with
  | nil => intro h; simp at h
  | cons p rest ih =>
    intro hb
    obtain ⟨k, v⟩ := p
    by_cases h1 : 255 < k.length
    · exact ⟨.keyTooLong, by simp [exportFrames, h1], Or.inl rfl⟩
    · by_cases h2 : 4294967295 < v.length
      · exact ⟨.valueTooLarge, by simp [exportFrames, h1, h2], Or.inr rfl⟩
      · obtain ⟨kv, hmem, hviol⟩ := hb
        rcases List.mem_cons.mp hmem with rfl | hmem'
        · simp only at hviol
          omega
        · obtain ⟨e, he, hor⟩ := ih ⟨kv, hmem', hviol⟩
          exact ⟨e, by simp [exportFrames, h1, h2, he], hor⟩

/-! ## The claims -/

/-- Claim C1.  The claim states that export followed by re-importing into
the same table restores the original record set, committing the final
partial batch at end of file.  The code refutes it: `ImportValues` tests
`file.eof()` at the top of its loop, but `eofbit` is only ever set by a
*failed* read, so after the last record is consumed the loop body runs once
more, the read of the next key length fails, and the call returns
`OUT_OF_RANGE` "Unexpected end of file" without ever reaching the
post-loop commit of the pending batch.  Concretely: a table holding the
single record `[7] ↦ [1,2,3]` exports fine, but importing that very dump
returns `unexpectedEOF` and leaves the namespace empty — the record is
lost with the uncommitted batch. -/
theorem c1_round_trip_broken :
    ExportValues ⟨false, [[([7], [1, 2, 3])]], 0⟩
      = (.ok [84, 70, 75, 86, 1, 0, 0, 0, 1, 7, 3, 0, 0, 0, 1, 2, 3],
         ⟨false, [[([7], [1, 2, 3])]], 0⟩) ∧
    ImportValues ⟨false, [[([7], [1, 2, 3])]], 0⟩
        (some [84, 70, 75, 86, 1, 0, 0, 0, 1, 7, 3, 0, 0, 0, 1, 2, 3])
      = (.error .unexpectedEOF, ⟨false, [[]], 0⟩) ∧
    storeGet [] [7] = none := by
  refine ⟨by decide, ?_, by decide⟩
  simp [ImportValues, Clear, GetOrCreateColumnHandle, readN, u32ofBytes,
    RDB_EXPORT_FILE_MAGIC, RDB_EXPORT_FILE_VERSION, importLoop, commitBatch,
    putAll, storePut]

/-- Claim C3.  The claim states that the 2-key bulk path and the per-key
point path agree on results and state.  The code refutes it for `Find`:
the bulk path hands `colHandles` — the vector of *all* column families —
to the vector form of `MultiGet`, which looks key `i` up in
`column_family[i]`; the point path queries the table's own family.  On a
database whose handle vector is `[other, ours]` with `other` mapping
`[5] ↦ [42]` and `ours` empty, a 1-key `Find` of `[5]` returns the default
`[0]`, while the 2-key `Find` of `[5], [5]` returns `[42]` for the first
slot; the per-key semantics applied to the same two keys yields
`[0], [0]`. -/
theorem c3_bulk_point_divergence :
    Find 1 ⟨false, [[([5], [42])], []], 1⟩ [[5]] 1 1 [[0]]
      = (.ok [[0]], ⟨false, [[([5], [42])], []], 1⟩) ∧
    Find 1 ⟨false, [[([5], [42])], []], 1⟩ [[5], [5]] 2 1 [[0]]
      = (.ok [[42], [0]], ⟨false, [[([5], [42])], []], 1⟩) ∧
    processStatuses 1 1 [[0]] (pointStatuses (some []) [[5], [5]]) 0
      = .ok [[0], [0]] ∧
    (.ok [[42], [0]] : Except RdbError (List Bytes)) ≠ .ok [[0], [0]] := by
  decide

/-- Claim C4.  The claim states that every key absent from the namespace is
default-filled.  This holds on the point path, but the bulk path inherits
the `MultiGet` handle-vector bug (see C3): key `[9]` is absent from the
table's family, yet the first output slot of a 2-key `Find` is `[7]` — the
value another column family stores under `[9]` — instead of the default
fill. -/
theorem c4_absent_key_not_default :
    storeGet (([[([9], [7])], []] : List Store).getD 1 []) [9] = none ∧
    (Find 1 ⟨false, [[([9], [7])], []], 1⟩ [[9], [9]] 2 1 [[0]]).1
      = .ok [[7], [0]] ∧
    (.ok [[7], [0]] : Except RdbError (List Bytes))
      ≠ .ok (defaultFill [[0]] 1 0 ++ defaultFill [[0]] 1 1) := by
  decide

/-- Claim C6, counterexample.  The claim states that `Remove` on a
read-write table with an absent namespace performs no state change.  In
the code `Remove` first calls `GetOrCreateColumnHandle`, which creates the
missing column family, so the namespace goes from absent to present-empty:
the call succeeds but the state differs. -/
theorem c6_counterexample :
    Remove ⟨false, [[]], 1⟩ [[5]] = (.ok (), ⟨false, [[], []], 1⟩) ∧
    (⟨false, [[], []], 1⟩ : TableState) ≠ ⟨false, [[]], 1⟩ := by
  decide

/-- Claim C8.  The claim states that records remaining in the final
partial batch are committed when end-of-file is reached.  The code
refutes it: the loop's `eof()` test never fires (see C1), so the
post-loop commit is dead code.  Importing a well-formed dump holding the
single record `[3] ↦ [9]` returns `unexpectedEOF` with the record still
in the uncommitted batch — the table's family stays empty. -/
theorem c8_final_batch_never_committed :
    ImportValues ⟨false, [[]], 1⟩
        (some [84, 70, 75, 86, 1, 0, 0, 0, 1, 3, 1, 0, 0, 0, 9])
      = (.error .unexpectedEOF, ⟨false, [[], []], 1⟩) ∧
    storeGet (([[], []] : List Store).getD 1 []) [3] = none := by
  refine ⟨?_, by decide⟩
  simp [ImportValues, Clear, GetOrCreateColumnHandle, readN, u32ofBytes,
    RDB_EXPORT_FILE_MAGIC, RDB_EXPORT_FILE_VERSION, importLoop, commitBatch,
    putAll, storePut]

/-- Claim C10, counterexample.  The claim states that passing the
`dSize % valuesPerDim0 == 0` check keeps every default-fill copy in
bounds.  An *empty* default buffer passes the check (`0 % 1 = 0`), yet on
a miss the fill copies `vpd = 1` element starting at `0 % 0` — a
division by zero followed by an out-of-bounds read in the C++; in the
model the fill produces 0 of the 1 required elements and `Find` returns a
too-short output. -/
theorem c10_counterexample :
    (List.length ([] : List Bytes)) % 1 = 0 ∧
    ¬ ((0 * 1) % (List.length ([] : List Bytes)) + 1
        ≤ List.length ([] : List Bytes)) ∧
    (defaultFill [] 1 (0 * 1)).length ≠ 1 ∧
    (Find 1 ⟨false, [[]], 0⟩ [[1]] 1 1 []).1 = .ok [] := by
  decide

/-- Claim C6, amended.  `Remove` on a read-write table whose namespace is
absent returns success and deletes nothing — the resulting namespace holds
no records — but it does not leave the state unchanged: the call first
creates the missing (empty) column family. -/
theorem c6_remove_absent_amended (t : TableState) (hro : t.readOnly = false)
    (habs : t.colIndex = t.families.length) (keys : List Bytes) :
    Remove t keys = (.ok (), { t with families := t.families ++ [[]] }) ∧
    ({ t with families := t.families ++ [[]] } : TableState).families.getD
      t.colIndex [] = [] := by
  have hfam : (t.families ++ [[]]).getD t.colIndex [] = [] := by
    rw [habs]; exact getD_append_len t.families [] []
  have hset : (t.families ++ [[]]).set t.colIndex (delAll [] keys) = t.families ++ [[]] := by
    rw [delAll_nil_store, habs]
    exact set_append_len t.families [] []
  refine ⟨?_, hfam⟩
  simp only [Remove, getOrCreate_absent_rw hro (by omega)]
  simp [hro, ← List.getD_eq_getElem?_getD, hfam, hset]

theorem c6_remove_absent_amended_witness :
    Remove ⟨false, [[]], 1⟩ [[9]] = (.ok (), ⟨false, [[], []], 1⟩) := by
  have h := (c6_remove_absent_amended ⟨false, [[]], 1⟩ rfl rfl [[9]]).1
  simpa using h

/-- Claim C7, counterexample.  The claim quantifies over *every* export
call, but on a read-only table whose namespace is absent
`GetOrCreateColumnHandle` returns a null handle and `ExportValues` passes
it straight to `db->NewIterator`, which dereferences it: the call crashes
(modelled `.nullHandle`) and emits no header or records at all — in
particular not even the 8-byte header an empty record set would get.
(On a read-write table an absent namespace is instead created first and
the export emits exactly the header, as the last conjunct shows.) -/
theorem c7_counterexample :
    (ExportValues ⟨true, [[]], 1⟩).1 = .error .nullHandle ∧
    (.error .nullHandle : Except RdbError Bytes)
      ≠ .ok (u32le RDB_EXPORT_FILE_MAGIC ++ u32le RDB_EXPORT_FILE_VERSION) ∧
    ExportValues ⟨false, [[]], 1⟩
      = (.ok (u32le RDB_EXPORT_FILE_MAGIC ++ u32le RDB_EXPORT_FILE_VERSION),
         ⟨false, [[], []], 1⟩) := by
  decide

/-- Claim C7, amended.  `ExportValues` on a table whose namespace is
*present* writes the 8-byte header (`uint32` magic packing
`'T','F','K','V'` little-endian, then `uint32` version 1) followed by one
frame `(uint8 keyLength, key, uint32 valueLength, value)` per stored
record; by the store's sortedness invariant (established for every
reachable store by `storePut_sorted` / `putAll_sorted` /
`storeDel_sorted`) the keys appear in ascending raw-byte order; a key
longer than 255 bytes or a value longer than `2^32 - 1` bytes makes the
call throw `keyTooLong` / `valueTooLarge` instead of writing a truncated
frame.  When the namespace is absent no such file is produced: in
read-only mode the call dereferences a null handle (the counterexample),
in read-write mode it first creates the empty namespace and emits just
the header. -/
theorem c7_export_format (t : TableState) (s : Store)
    (hs : s = t.families.getD t.colIndex [])
    (hpres : t.colIndex < t.families.length)
    (hsort : StoreSorted s) :
    ((∀ kv ∈ s, kv.1.length ≤ 255 ∧ kv.2.length ≤ 4294967295) →
      (ExportValues t).1
        = .ok (u32le RDB_EXPORT_FILE_MAGIC ++ u32le RDB_EXPORT_FILE_VERSION
            ++ s.flatMap frameOf) ∧
      List.Pairwise (fun a b => bytesLt a b = true) (s.map Prod.fst)) ∧
    ((∃ kv ∈ s, 255 < kv.1.length ∨ 4294967295 < kv.2.length) →
      ∃ e, (ExportValues t).1 = .error e ∧
        (e = RdbError.keyTooLong ∨ e = RdbError.valueTooLarge)) := by
  subst hs
  constructor
  · intro hb
    refine ⟨?_, ?_⟩
    · simp [ExportValues, getOrCreate_present hpres,
        ← List.getD_eq_getElem?_getD, exportFrames_ok _ hb, List.append_assoc]
    · exact (List.pairwise_map).mpr hsort
  · intro hex
    obtain ⟨e, he, hor⟩ := exportFrames_err _ hex
    exact ⟨e, by simp [ExportValues, getOrCreate_present hpres,
      ← List.getD_eq_getElem?_getD, he], hor⟩

theorem c7_export_format_witness :
    (ExportValues ⟨false, [[([2], [5]), ([3], [6, 6])]], 0⟩).1
      = .ok (u32le RDB_EXPORT_FILE_MAGIC ++ u32le RDB_EXPORT_FILE_VERSION
          ++ ([([2], [5]), ([3], [6, 6])] : Store).flatMap frameOf) ∧
    List.Pairwise (fun a b => bytesLt a b = true)
      (([([2], [5]), ([3], [6, 6])] : Store).map Prod.fst) :=
  (c7_export_format ⟨false, [[([2], [5]), ([3], [6, 6])]], 0⟩
    [([2], [5]), ([3], [6, 6])] rfl (by decide) (by decide)).1 (by decide)

/-- Claim C9.  Importing a source whose 8-byte header parses but whose
magic or version mismatches returns the unsupported-format error
(`error::Code::INTERNAL`, "Unsupported file-type") before any record is
read or written, leaving the table exactly in the namespace-absent state
produced by the unconditional initial clear.  (Hypothesis `hok` restricts
to tables on which that initial clear succeeds — on a read-only table with
a present namespace the clear itself fails first, with
`PermissionDenied`.) -/
theorem c9_bad_magic_unsupported (t : TableState) (bytes mb r1 vb r2 : Bytes)
    (hok : t.readOnly = false ∨ t.families.length ≤ t.colIndex)
    (h1 : readN 4 bytes = some (mb, r1)) (h2 : readN 4 r1 = some (vb, r2))
    (hbad : u32ofBytes mb ≠ RDB_EXPORT_FILE_MAGIC ∨
      u32ofBytes vb ≠ RDB_EXPORT_FILE_VERSION) :
    ∃ t1, Clear t = .ok t1 ∧
      ImportValues t (some bytes) = (.error .unsupportedFormat, t1) ∧
      t1.families.length ≤ t1.colIndex := by
  by_cases hp : t.colIndex < t.families.length
  · have hro : t.readOnly = false := by
      rcases hok with h | h
      · exact h
      · omega
    refine ⟨⟨t.readOnly, t.families.eraseIdx t.colIndex,
      (t.families.eraseIdx t.colIndex).length⟩, ?_, ?_, ?_⟩
    · simp [Clear, hp, hro]
    · have hc : Clear t = .ok ⟨t.readOnly, t.families.eraseIdx t.colIndex,
          (t.families.eraseIdx t.colIndex).length⟩ := by
        simp [Clear, hp, hro]
      simp only [ImportValues, hc, h1, h2]
      rw [if_pos hbad]
    · simp
  · have hnp : ¬ t.colIndex < t.families.length := hp
    refine ⟨t, by simp [Clear, hnp], ?_, by omega⟩
    have hc : Clear t = .ok t := by simp [Clear, hnp]
    simp only [ImportValues, hc, h1, h2]
    rw [if_pos hbad]

theorem c9_bad_magic_unsupported_witness :
    ∃ t1, Clear ⟨false, [[([1], [2])]], 0⟩ = .ok t1 ∧
      ImportValues ⟨false, [[([1], [2])]], 0⟩ (some [9, 9, 9, 9, 1, 0, 0, 0])
        = (.error .unsupportedFormat, t1) ∧
      t1.families.length ≤ t1.colIndex :=
  c9_bad_magic_unsupported ⟨false, [[([1], [2])]], 0⟩ [9, 9, 9, 9, 1, 0, 0, 0]
    [9, 9, 9, 9] [1, 0, 0, 0] [1, 0, 0, 0] [] (Or.inl rfl)
    (by decide) (by decide) (Or.inl (by decide))

/-- Claim C10, amended.  Provided the default-value buffer is non-empty,
passing the `dSize % valuesPerDim0 == 0` check does keep every
default-fill copy in bounds: every slot offset is a multiple of `vpd`, so
`off % dSize + vpd ≤ dSize`, and the fill produces exactly `vpd`
elements.  (The non-emptiness hypothesis is forced by the counterexample:
an empty default buffer passes the check but makes the copy read out of
bounds.) -/
theorem c10_fill_in_bounds (d : List Bytes) (vpd i : Nat)
    (hdiv : d.length % vpd = 0) (hpos : 0 < d.length) :
    (i * vpd) % d.length + vpd ≤ d.length ∧
    (defaultFill d vpd (i * vpd)).length = vpd := by
  rcases Nat.eq_zero_or_pos vpd with hv | hv
  · subst hv
    rw [Nat.mod_zero] at hdiv
    exact absurd hdiv (by omega)
  · have hdvd : vpd ∣ d.length := Nat.dvd_of_mod_eq_zero hdiv
    have hoff : vpd ∣ (i * vpd) := Dvd.intro_left i rfl
    have hmod : vpd ∣ (i * vpd) % d.length := (Nat.dvd_mod_iff hdvd).mpr hoff
    have hlt : (i * vpd) % d.length < d.length := Nat.mod_lt _ hpos
    have hsub : vpd ∣ (d.length - (i * vpd) % d.length) := Nat.dvd_sub' hdvd hmod
    have hle : vpd ≤ d.length - (i * vpd) % d.length :=
      Nat.le_of_dvd (by omega) hsub
    constructor
    · omega
    · simp only [defaultFill, List.length_take, List.length_drop]
      omega

theorem c10_fill_in_bounds_witness :
    (3 * 2) % (List.length ([[0], [1]] : List Bytes)) + 2
      ≤ List.length ([[0], [1]] : List Bytes) ∧
    (defaultFill [[0], [1]] 2 (3 * 2)).length = 2 :=
  c10_fill_in_bounds [[0], [1]] 2 3 (by decide) (by decide)

end RDB
